import Mathlib

/-!
Verification development for the Amazon→Pinterest automation backend
(`main.py` and `trending_amazon_pinterest_bot.py`).

Python strings are embedded as `List Char` (Python `len`/slicing count code
points, as `List Char` does).  Network and HTML-parsing effects are embedded
as explicit oracle parameters: a function supplying, for each search term,
the list of parsed search-result containers, a list of Pinterest boards, and
a per-product publish outcome.  Randomness (prefix choice) is embedded as an
explicit choice parameter.
-/

namespace PinBot

/-- Characters of `s` after the first occurrence of the substring `sep`;
`none` when `sep` does not occur.  `(afterFirst sep s).isSome` embeds
Python's `sep in s`, and for a separator that starts with `'/'` (as
`"/dp/"` and `"/gp/product/"` do), `takeUntil '/' ((afterFirst sep s).getD [])`
coincides with Python's `s.split(sep)[1].split('/')[0]`: the segment
`s.split(sep)[1]` extends from the first occurrence of `sep` either to the
end of the string or to the next occurrence of `sep`, which begins with
`'/'`, so cutting at the first `'/'` gives the same characters either way. -/
def afterFirst (sep : List Char) : List Char → Option (List Char)
  | [] => none
  | c :: cs => if sep.isPrefixOf (c :: cs) then some ((c :: cs).drop sep.length)
               else afterFirst sep cs

/-- Characters of `s` before the first occurrence of the character `c`
(Python `s.split(c)[0]` for a single-character separator). -/
def takeUntil (c : Char) (s : List Char) : List Char :=
  s.takeWhile (· ≠ c)

/-- A product as assembled by `_extract_product_from_search`
(`trending_amazon_pinterest_bot.py:194-246`).  Only the fields the verified
claims depend on are carried; `asin = ""` embeds a falsy/missing ASIN. -/
structure Product where
  asin : List Char
  title : List Char
  url : List Char
  deriving DecidableEq, Repr

/-- Embeds `self.trending_categories` (`trending_amazon_pinterest_bot.py:68-99`)
composed with the `.get(category, ['best sellers'])` default of line 127. -/
def trending_categories (category : List Char) : List (List Char) :=
  if category = "electronics".toList then
    ["best sellers electronics".toList, "new releases electronics".toList,
     "movers and shakers electronics".toList]
  else if category = "home".toList then
    ["best sellers home kitchen".toList, "new releases home".toList,
     "trending home decor".toList]
  else if category = "fashion".toList then
    ["best sellers clothing".toList, "trending fashion accessories".toList,
     "new releases shoes".toList]
  else if category = "health".toList then
    ["best sellers health personal care".toList, "trending supplements".toList,
     "new releases beauty".toList]
  else if category = "books".toList then
    ["best sellers books".toList, "new releases kindle books".toList,
     "trending audiobooks".toList]
  else if category = "sports".toList then
    ["best sellers sports outdoors".toList, "trending fitness equipment".toList,
     "new releases sports".toList]
  else ["best sellers".toList]

/-- The category allow-list of `AutomationConfigModel.validate_categories`
(`main.py:105`). -/
def valid_categories : List (List Char) :=
  ["electronics".toList, "home".toList, "fashion".toList,
   "health".toList, "books".toList, "sports".toList]

/-- Embeds `_search_amazon_products` (`trending_amazon_pinterest_bot.py:151-192`):
the page fetch and soup parsing are embedded as the oracle value `page`, one
entry per search-result container, `some p` when
`_extract_product_from_search` succeeds on that container and `none` when it
returns `None` or throws (both are skipped).  The loop visits
`product_containers[:max_results]` and keeps the successful extractions. -/
def search_amazon_products (page : List (Option Product)) (max_results : ℕ) :
    List Product :=
  (page.take max_results).filterMap id

/-- The search-term loop of `get_trending_products`
(`trending_amazon_pinterest_bot.py:129-138`): before each term the
accumulated list is checked against `max_products` (`break`), then the
term's search results are appended.  `pages` is the network oracle giving
each term's parsed containers; `quota` is `max_products // len(search_terms)`,
computed once outside the loop. -/
def searchTermLoop (pages : List Char → List (Option Product)) (quota max_products : ℕ) :
    List (List Char) → List Product → List Product
  | [], acc => acc
  | term :: terms, acc =>
    if acc.length ≥ max_products then acc
    else searchTermLoop pages quota max_products terms
      (acc ++ search_amazon_products (pages term) quota)

/-- The recursion of `_remove_duplicate_products`
(`trending_amazon_pinterest_bot.py:271-282`) with the `seen_asins` set made
an explicit list: a product is kept iff its ASIN is truthy (non-empty) and
not yet seen (`if asin and asin not in seen_asins`). -/
def removeDupAux (seen : List (List Char)) : List Product → List Product
  | [] => []
  | p :: ps =>
    if p.asin ≠ [] ∧ p.asin ∉ seen then p :: removeDupAux (p.asin :: seen) ps
    else removeDupAux seen ps

/-- Embeds `_remove_duplicate_products` (`trending_amazon_pinterest_bot.py:271-282`). -/
def remove_duplicate_products (products : List Product) : List Product :=
  removeDupAux [] products

/-- Embeds `get_trending_products` (`trending_amazon_pinterest_bot.py:111-149`):
look up the category's search terms (with default), run the accumulation
loop with per-term quota `max_products / numTerms` (integer division),
deduplicate, truncate to `max_products`.  The `try/except` returning `[]`
cannot fire in the embedding (the oracles already absorb network failure). -/
def get_trending_products (pages : List Char → List (Option Product))
    (category : List Char) (max_products : ℕ) : List Product :=
  let search_terms := trending_categories category
  let products := searchTermLoop pages (max_products / search_terms.length)
    max_products search_terms []
  (remove_duplicate_products products).take max_products

/-- Embeds `create_affiliate_link` (`trending_amazon_pinterest_bot.py:427-453`).
Python's `amazon_url.split('/dp/')[1].split('/')[0].split('?')[0]` is
embedded as `takeUntil '?' (takeUntil '/' ·)` of the text after the first
`"/dp/"` (see `afterFirst`); likewise for `"/gp/product/"`.  The result
domain is the hard-coded `https://www.amazon.com`, whatever the input
domain was; an unrecognized URL shape is returned unchanged. -/
def create_affiliate_link (amazon_tag : List Char) (amazon_url : List Char) :
    List Char :=
  match afterFirst "/dp/".toList amazon_url with
  | some rest =>
      let asin := takeUntil '?' (takeUntil '/' rest)
      "https://www.amazon.com/dp/".toList ++ asin ++ "?tag=".toList ++ amazon_tag
  | none =>
    match afterFirst "/gp/product/".toList amazon_url with
    | some rest =>
        let asin := takeUntil '?' (takeUntil '/' rest)
        "https://www.amazon.com/dp/".toList ++ asin ++ "?tag=".toList ++ amazon_tag
    | none => amazon_url

/-- The `engaging_prefixes` list of `_generate_pin_title`
(`trending_amazon_pinterest_bot.py:491-497`). -/
def engaging_prefixes : List (List Char) :=
  ["🔥 TRENDING: ".toList, "⭐ TOP RATED: ".toList, "💯 MUST-HAVE: ".toList,
   "🎯 BEST SELLER: ".toList, "✨ AMAZING: ".toList]

/-- Embeds `_generate_pin_title` (`trending_amazon_pinterest_bot.py:482-504`):
truncate to `title[:97] + '...'` when over 100 characters, then prepend a
pseudo-randomly chosen prefix when the (possibly truncated) title is under
80 characters.  `random.choice` is embedded as the explicit index `choice`
reduced modulo the number of prefixes. -/
def generate_pin_title (choice : ℕ) (title : List Char) : List Char :=
  let t := if title.length > 100 then title.take 97 ++ "...".toList else title
  if t.length < 80 then
    engaging_prefixes.getD (choice % engaging_prefixes.length) [] ++ t
  else t

/-- A Pinterest board as returned by `get_pinterest_boards`
(`trending_amazon_pinterest_bot.py:551-567`). -/
structure Board where
  id : List Char
  name : List Char
  deriving DecidableEq, Repr

/-- Outcome of one iteration of the per-product loop of
`run_complete_automation` (`trending_amazon_pinterest_bot.py:652-687`),
embedding the detail fetch, content generation and `create_pinterest_pin`
call for the product at a given position: `created` when the POST returned
201 (with the pin's `id`/`url` fields, each possibly absent), `failed` when
it returned `None`, `exn` when any step of the iteration threw (caught at
line 684, counted as an error, loop continues). -/
inductive PinOutcome
  | created (pin_id pin_url : Option (List Char))
  | failed
  | exn
  deriving DecidableEq, Repr

/-- One entry of `results['created_pins']`
(`trending_amazon_pinterest_bot.py:669-673`). -/
structure CreatedPin where
  product_title : List Char
  pin_id : Option (List Char)
  pin_url : Option (List Char)
  deriving DecidableEq, Repr

/-- The `results` dictionary of `run_complete_automation`
(`trending_amazon_pinterest_bot.py:624-630`). -/
structure BotResults where
  products_found : ℕ
  pins_created : ℕ
  errors : ℕ
  success_rate : ℚ
  created_pins : List CreatedPin
  deriving DecidableEq, Repr

/-- The `results` dictionary as initialized at `trending_amazon_pinterest_bot.py:624-630`. -/
def initBotResults : BotResults :=
  { products_found := 0, pins_created := 0, errors := 0, success_rate := 0,
    created_pins := [] }

/-- The per-product loop of `run_complete_automation`
(`trending_amazon_pinterest_bot.py:652-687`) over the enumerated product
list: a created pin increments `pins_created` and appends to
`created_pins`; a `None` publish result or an in-iteration exception
increments `errors` and continues.  Before the publish, the code merges
`get_detailed_product_info(product['url'])` into the product (line 657-659),
which replaces its `title` exactly when the detail fetch produced one; the
`detailTitle` oracle supplies that possibly-replacing title per position, so
the `created_pins` entry records `(detailTitle i).getD p.title`, the title
value after the merge. -/
def processProducts (outcome : ℕ → PinOutcome)
    (detailTitle : ℕ → Option (List Char)) :
    List (ℕ × Product) → BotResults → BotResults
  | [], r => r
  | (i, p) :: rest, r =>
    match outcome i with
    | .created pid purl =>
        processProducts outcome detailTitle rest
          { r with pins_created := r.pins_created + 1,
                   created_pins :=
                     r.created_pins ++ [⟨(detailTitle i).getD p.title, pid, purl⟩] }
    | .failed =>
        processProducts outcome detailTitle rest { r with errors := r.errors + 1 }
    | .exn =>
        processProducts outcome detailTitle rest { r with errors := r.errors + 1 }

/-- Embeds `run_complete_automation` (`trending_amazon_pinterest_bot.py:608-699`).
`boards` is the oracle value of `get_pinterest_boards` (consulted only when
no `board_id` is configured; an empty list triggers the early `return
results` of line 638 with the all-zero `initBotResults`).  The trending
fetch reuses `get_trending_products` with the `pages` oracle; `pinOutcome`
and `detailTitle` embed the per-product pipeline (publish outcome and the
title possibly replaced by the detail-page merge).  After the loop the
success rate is set to `pins_created / (pins_created + errors) * 100` when
at least one attempt was made. -/
def run_complete_automation (boards : List Board)
    (pages : List Char → List (Option Product)) (pinOutcome : ℕ → PinOutcome)
    (detailTitle : ℕ → Option (List Char))
    (category : List Char) (max_products : ℕ) (board_id : Option (List Char)) :
    BotResults :=
  match board_id, boards with
  | none, [] => initBotResults
  | _, _ =>
    let trending := get_trending_products pages category max_products
    let results := { initBotResults with products_found := trending.length }
    if trending.isEmpty then results
    else
      let results := processProducts pinOutcome detailTitle trending.enum results
      let total_attempts := results.pins_created + results.errors
      if 0 < total_attempts then
        { results with success_rate :=
            (results.pins_created : ℚ) / (total_attempts : ℚ) * 100 }
      else results

/-! ## `main.py`: encryption manager -/

/-- The urlsafe base64 alphabet used by `base64.urlsafe_b64encode`. -/
def b64_alphabet : List Char :=
  "ABCDEFGHIJKLMNOPQRSTUVWXYZabcdefghijklmnopqrstuvwxyz0123456789-_".toList

/-- Character for a 6-bit group. -/
def b64_char (i : ℕ) : Char := b64_alphabet.getD i '='

/-- Index of a base64 character (length of the alphabet when absent). -/
def b64_index (c : Char) : ℕ := b64_alphabet.indexOf c

/-- Models `base64.urlsafe_b64encode` on a byte list: each 3-byte group becomes 4
characters; a trailing 1- or 2-byte group is padded with `'='`. -/
def b64_encode : List ℕ → List Char
  | [] => []
  | [b0] => [b64_char (b0 / 4), b64_char (b0 % 4 * 16), '=', '=']
  | [b0, b1] => [b64_char (b0 / 4), b64_char (b0 % 4 * 16 + b1 / 16),
                 b64_char (b1 % 16 * 4), '=']
  | b0 :: b1 :: b2 :: rest =>
      b64_char (b0 / 4) :: b64_char (b0 % 4 * 16 + b1 / 16) ::
      b64_char (b1 % 16 * 4 + b2 / 64) :: b64_char (b2 % 64) :: b64_encode rest

/-- Models `base64.urlsafe_b64decode` on the strings `b64_encode` produces: each
4-character group yields 3 bytes, with `'='` padding (which in well-formed
base64 occurs only in the final group) shortening that group to 1 or 2
bytes. -/
def b64_decode : List Char → List ℕ
  | c0 :: c1 :: c2 :: c3 :: rest =>
      if c2 = '=' then [b64_index c0 * 4 + b64_index c1 / 16]
      else if c3 = '=' then
        [b64_index c0 * 4 + b64_index c1 / 16,
         b64_index c1 % 16 * 16 + b64_index c2 / 4]
      else
        (b64_index c0 * 4 + b64_index c1 / 16) ::
        (b64_index c1 % 16 * 16 + b64_index c2 / 4) ::
        (b64_index c2 % 4 * 64 + b64_index c3) :: b64_decode rest
  | _ => []

/-- Embeds `EncryptionManager.generate_key` (`main.py:49-60`) with the salt
supplied (the `salt is None` branch draws fresh randomness and is embedded
by passing the drawn salt explicitly).  The PBKDF2-HMAC-SHA256 derivation
is the parameter `kdf`, a pure function of password and salt; the returned
key is the urlsafe-base64 encoding of the 32 derived bytes. -/
def generate_key (kdf : List ℕ → List ℕ → List ℕ) (password salt : List ℕ) :
    List Char × List ℕ :=
  (b64_encode (kdf password salt), salt)

/-- Embeds `EncryptionManager.encrypt_data` (`main.py:63-66`): Fernet encryption
(parameter `fernetEnc`, keyed by the base64 key string) followed by a
further urlsafe-base64 encoding of the token bytes. -/
def encrypt_data (fernetEnc : List Char → List ℕ → List ℕ)
    (data : List ℕ) (key : List Char) : List Char :=
  b64_encode (fernetEnc key data)

/-- Embeds `EncryptionManager.decrypt_data` (`main.py:69-73`): urlsafe-base64
decode, then Fernet decryption (parameter `fernetDec`, returning `none` on
an invalid token — Python raises there). -/
def decrypt_data (fernetDec : List Char → List ℕ → Option (List ℕ))
    (encrypted_data : List Char) (key : List Char) : Option (List ℕ) :=
  fernetDec key (b64_decode encrypted_data)

/-! ## `main.py`: job records and the orchestrator -/

/-- The five values the `status` field of a job record takes. -/
inductive JobStatus
  | queued | running | completed | failed | cancelled
  deriving DecidableEq, Repr

/-- The `progress` dictionary of a job record.  On creation it holds only
`overall_progress` (`main.py:301`); the per-category update (`main.py:174-179`)
replaces it with all four keys, so the last three are `Option`s. -/
structure Progress where
  overall_progress : ℚ
  current_category : Option (List Char) := none
  completed_categories : Option ℕ := none
  total_categories : Option ℕ := none
  deriving DecidableEq, Repr

/-- A per-category entry of `overall_results['category_results']`:
either the `results` dictionary returned by `run_complete_automation`
(`main.py:192`) or the `{"error": str(e)}` record of `main.py:203`. -/
inductive CatResult
  | results (r : BotResults)
  | error (msg : List Char)
  deriving DecidableEq, Repr

/-- The `overall_results` accumulator of `run_automation_task`
(`main.py:163-168`), with `category_results` as an insertion-ordered
association list (Python dict semantics). -/
structure OverallResults where
  total_products_found : ℕ
  total_pins_created : ℕ
  total_errors : ℕ
  category_results : List (List Char × CatResult)
  deriving DecidableEq, Repr

/-- The `overall_results` accumulator as initialized at `main.py:163-168`. -/
def emptyResults : OverallResults :=
  { total_products_found := 0, total_pins_created := 0, total_errors := 0,
    category_results := [] }

/-- Python dict assignment `d[k] = v` on an insertion-ordered association
list: overwrite in place when the key is present, append otherwise. -/
def dictInsert : List (List Char × CatResult) → List Char → CatResult →
    List (List Char × CatResult)
  | [], k, v => [(k, v)]
  | (k', v') :: rest, k, v =>
    if k' = k then (k, v) :: rest else (k', v') :: dictInsert rest k v

/-- A job record of `active_jobs` (`main.py:298-306`), restricted to the
fields the claims speak about (status, progress, results, error;
timestamps and the immutable id/session/config are omitted). -/
structure JobRecord where
  status : JobStatus
  progress : Progress
  results : Option OverallResults := none
  error : Option (List Char) := none
  deriving DecidableEq, Repr

/-- A job as created by `start_automation` (`main.py:298-306`):
`status = "queued"`, `progress = {"overall_progress": 0}`. -/
def initialJob : JobRecord :=
  { status := .queued, progress := { overall_progress := 0 } }

/-- Embeds `cancel_job` (`main.py:351-367`): after the existence and ownership
checks, the status is set to `"cancelled"` unconditionally — the current
status is not consulted. -/
def cancelJob (j : JobRecord) : JobRecord :=
  { j with status := .cancelled }

/-- The per-job cascade of `end_session` (`main.py:377-381`): a job is set
to `"cancelled"` only when its status is `"queued"` or `"running"`. -/
def endSessionCancel (j : JobRecord) : JobRecord :=
  if j.status = .queued ∨ j.status = .running then { j with status := .cancelled }
  else j

/-- What `bot.run_complete_automation` does for one category as seen from
`run_automation_task` (`main.py:182-186`): either return a `results`
dictionary or raise (caught at `main.py:200-203`). -/
inductive CatOutcome
  | ok (r : BotResults)
  | exn (msg : List Char)

/-- The per-category loop of `run_automation_task` (`main.py:170-209`),
returning the successive states of the job record (one entry per write to
`active_jobs[job_id]`).  Each iteration writes the progress dictionary
(`main.py:174-179`, with `overall_progress = completed/total * 100`); on
success it then writes intermediate results (`main.py:197`) and increments
`completed_categories`; on an exception it only updates the local
accumulator (`main.py:202-203`) — no assignment to the job record occurs
(in Python the stored `results` aliases the accumulator object, so the
embedding records the value present at each explicit assignment; the claims
settled here depend only on the final value, which line 207 re-assigns in
full).  After the
loop the final write (`main.py:206-208`) sets `status = "completed"`,
attaches the results and forces `overall_progress` to 100. -/
def runCats (outcome : List Char → CatOutcome) (total : ℕ) :
    List (List Char) → ℕ → OverallResults → JobRecord → List JobRecord
  | [], _, acc, j =>
      let jf : JobRecord :=
        { j with status := .completed, results := some acc,
                 progress := { j.progress with overall_progress := 100 } }
      [jf]
  | cat :: cats, completed, acc, j =>
      let j1 : JobRecord := { j with progress :=
        { overall_progress := (completed : ℚ) / (total : ℚ) * 100,
          current_category := some cat,
          completed_categories := some completed,
          total_categories := some total } }
      match outcome cat with
      | .ok r =>
          let acc' : OverallResults :=
            { total_products_found := acc.total_products_found + r.products_found,
              total_pins_created := acc.total_pins_created + r.pins_created,
              total_errors := acc.total_errors + r.errors,
              category_results := dictInsert acc.category_results cat (.results r) }
          let j2 : JobRecord := { j1 with results := some acc' }
          j1 :: j2 :: runCats outcome total cats (completed + 1) acc' j2
      | .exn m =>
          let acc' : OverallResults :=
            { total_products_found := acc.total_products_found,
              total_pins_created := acc.total_pins_created,
              total_errors := acc.total_errors + 1,
              category_results := dictInsert acc.category_results cat (.error m) }
          j1 :: runCats outcome total cats completed acc' j1

/-- The successful-decryption path of `run_automation_task`
(`main.py:144-211`) as the list of successive job-record states: the first
write sets `status = "running"` (`main.py:147`) unconditionally — the
current status, cancelled or not, is not consulted — then the per-category
loop and the completion write follow. -/
def taskStates (outcome : List Char → CatOutcome) (cats : List (List Char))
    (j : JobRecord) : List JobRecord :=
  let j1 : JobRecord := { j with status := .running }
  j1 :: runCats outcome cats.length cats 0 emptyResults j1

/-- Embeds `run_automation_task` (`main.py:144-217`) including the enclosing
`try/except`: when credential decryption (or bot construction) raises, the
job — already marked running — is set to `failed` with the error recorded
(`main.py:213-217`). -/
def run_automation_task (decryptOk : Bool) (errMsg : List Char)
    (outcome : List Char → CatOutcome) (cats : List (List Char))
    (j : JobRecord) : List JobRecord :=
  if decryptOk then taskStates outcome cats j
  else [{ j with status := .running },
        { j with status := .failed, error := some errMsg }]

/-! ## Lemmas about deduplication -/

theorem mem_removeDupAux {p : Product} :
    ∀ {ps : List Product} {seen : List (List Char)},
      p ∈ removeDupAux seen ps → p.asin ∉ seen ∧ p.asin ≠ [] := by
  intro ps
  induction ps with
  | nil => intro seen h; simp [removeDupAux] at h
  | cons q ps ih =>
    intro seen h
    rw [removeDupAux] at h
    split at h
    · rename_i hq
      rcases List.mem_cons.mp h with rfl | h'
      · exact ⟨hq.2, hq.1⟩
      · have := ih h'
        exact ⟨fun hs => this.1 (List.mem_cons_of_mem _ hs), this.2⟩
    · exact ih h

theorem removeDupAux_pairwise :
    ∀ (ps : List Product) (seen : List (List Char)),
      (removeDupAux seen ps).Pairwise (fun a b => a.asin ≠ b.asin) := by
  intro ps
  induction ps with
  | nil => intro seen; simp [removeDupAux]
  | cons q ps ih =>
    intro seen
    rw [removeDupAux]
    split
    · refine List.Pairwise.cons (fun p hp => ?_) (ih _)
      have := (mem_removeDupAux hp).1
      exact fun hqp => this (hqp ▸ List.mem_cons_self _ _)
    · exact ih seen

theorem removeDupAux_sublist :
    ∀ (ps : List Product) (seen : List (List Char)),
      (removeDupAux seen ps).Sublist ps := by
  intro ps
  induction ps with
  | nil => intro seen; simp [removeDupAux]
  | cons q ps ih =>
    intro seen
    rw [removeDupAux]
    split
    · exact (ih _).cons₂ q
    · exact (ih seen).cons q

/-- First occurrence wins: whenever the deduplication keeps a product, that
product is exactly the first element of the input whose ASIN matches —
later duplicates are the ones dropped (they find their ASIN already in
`seen_asins`), never the kept representative. -/
theorem removeDupAux_first_occurrence :
    ∀ (ps : List Product) (seen : List (List Char)) (p : Product),
      p ∈ removeDupAux seen ps →
      ps.find? (fun q => q.asin == p.asin) = some p := by
  intro ps
  induction ps with
  | nil => intro seen p h; simp [removeDupAux] at h
  | cons q ps ih =>
    intro seen p h
    rw [removeDupAux] at h
    split at h
    · rename_i hq
      rcases List.mem_cons.mp h with rfl | h'
      · rw [List.find?_cons_of_pos]
        simp
      · have hnot := (mem_removeDupAux h').1
        have hne : q.asin ≠ p.asin := by
          intro he
          exact hnot (he ▸ List.mem_cons_self _ _)
        rw [List.find?_cons_of_neg]
        · exact ih _ p h'
        · simp [hne]
    · rename_i hq
      push_neg at hq
      have hmem2 := mem_removeDupAux h
      have hne : q.asin ≠ p.asin := by
        intro he
        apply hmem2.1
        rw [← he]
        apply hq
        rw [he]
        exact hmem2.2
      rw [List.find?_cons_of_neg]
      · exact ih _ p h
      · simp [hne]

/-! ## Claim theorems -/

/-- C3 counterexample: on the URL `https://x/dp/B001ABC?ref=1` with tag
`tag123`, the code does not return `https://x/dp/B001ABC?tag=tag123` (the
input domain is not preserved). -/
theorem c3_counterexample :
    create_affiliate_link "tag123".toList "https://x/dp/B001ABC?ref=1".toList ≠
      "https://x/dp/B001ABC?tag=tag123".toList := by decide

/-- C3 (corrected): `create_affiliate_link` on `https://x/dp/B001ABC?ref=1`
with tag `tag123` extracts the ASIN `B001ABC` but rebuilds the link on the
hard-coded canonical domain, returning
`https://www.amazon.com/dp/B001ABC?tag=tag123`. -/
theorem c3_affiliate_link_canonical :
    create_affiliate_link "tag123".toList "https://x/dp/B001ABC?ref=1".toList =
      "https://www.amazon.com/dp/B001ABC?tag=tag123".toList := by decide

/-- C6: a pin title generated from a 120-character product title is exactly
the first 97 characters followed by `"..."` — 100 characters in all, with
no attention-grabbing prefix prepended (the prefix is only added below 80
characters). -/
theorem c6_title_truncation (choice : ℕ) (title : List Char)
    (h : title.length = 120) :
    generate_pin_title choice title = title.take 97 ++ "...".toList ∧
      (generate_pin_title choice title).length = 100 := by
  have h3 : ("...".toList).length = 3 := by decide
  have h1 : (title.take 97 ++ "...".toList).length = 100 := by
    rw [List.length_append, List.length_take, h, h3]
    rfl
  have hgt : title.length > 100 := by omega
  have hge : ¬((title.take 97 ++ "...".toList).length < 80) := by rw [h1]; omega
  have h2 : generate_pin_title choice title = title.take 97 ++ "...".toList := by
    rw [generate_pin_title, if_pos hgt, if_neg hge]
  exact ⟨h2, h2 ▸ h1⟩

/-- C6 witness at a concrete 120-character title. -/
theorem c6_title_truncation_witness :
    (List.replicate 120 'a').length = 120 ∧
      (generate_pin_title 0 (List.replicate 120 'a') =
          (List.replicate 120 'a').take 97 ++ "...".toList ∧
        (generate_pin_title 0 (List.replicate 120 'a')).length = 100) :=
  ⟨by decide, c6_title_truncation 0 (List.replicate 120 'a') (by decide)⟩

/-- C7: whatever the category, the requested maximum, and whatever the
search pages return, `get_trending_products` yields a list with pairwise
distinct ASINs, of length at most the requested maximum, that is a sublist
(order preserved) of the raw accumulated search results; and the
deduplication keeps the first occurrence: every returned product is
exactly the first product of the raw accumulation carrying its ASIN. -/
theorem c7_trending_dedup_bound (pages : List Char → List (Option Product))
    (category : List Char) (max_products : ℕ) :
    (get_trending_products pages category max_products).Pairwise
        (fun a b => a.asin ≠ b.asin) ∧
      (get_trending_products pages category max_products).length ≤ max_products ∧
      (get_trending_products pages category max_products).Sublist
        (searchTermLoop pages (max_products / (trending_categories category).length)
          max_products (trending_categories category) []) ∧
      ∀ p ∈ get_trending_products pages category max_products,
        (searchTermLoop pages
            (max_products / (trending_categories category).length)
            max_products (trending_categories category) []).find?
          (fun q => q.asin == p.asin) = some p := by
  refine ⟨?_, ?_, ?_, ?_⟩
  · exact List.Pairwise.sublist (List.take_sublist _ _)
      (removeDupAux_pairwise _ [])
  · exact List.length_take_le _ _
  · exact (List.take_sublist _ _).trans (removeDupAux_sublist _ [])
  · intro p hp
    exact removeDupAux_first_occurrence _ [] p (List.mem_of_mem_take hp)

/-- C10: every category of the allow-list has exactly 3 search-term
variants, so for a requested maximum of 1 or 2 the per-term quota
`max_products / 3` is 0, every term search returns no products
(`containers[:0]`), and `get_trending_products` returns the empty list —
whatever the search pages would have contained. -/
theorem c10_small_max_empty (pages : List Char → List (Option Product))
    (category : List Char) (max_products : ℕ)
    (hcat : category ∈ valid_categories)
    (hmax : max_products = 1 ∨ max_products = 2) :
    (trending_categories category).length = 3 ∧
      get_trending_products pages category max_products = [] := by
  simp only [valid_categories, List.mem_cons, List.not_mem_nil, or_false] at hcat
  rcases hmax with h | h <;> subst h <;>
    rcases hcat with h | h | h | h | h | h <;> subst h <;> exact ⟨by decide, rfl⟩

/-- C10 witness at the category `electronics` with maximum 1. -/
theorem c10_small_max_empty_witness :
    ("electronics".toList ∈ valid_categories ∧ ((1 : ℕ) = 1 ∨ (1 : ℕ) = 2)) ∧
      ((trending_categories "electronics".toList).length = 3 ∧
        get_trending_products (fun _ => [some ⟨"B001".toList, "t".toList, "u".toList⟩])
          "electronics".toList 1 = []) :=
  ⟨⟨by decide, Or.inl rfl⟩,
    c10_small_max_empty _ _ _ (by decide) (Or.inl rfl)⟩

/-- C1 counterexample: a job cancelled while still `queued` is nevertheless
set to `running` (and then `completed`) when its already-scheduled
background task executes — the task never consults the cancelled status. -/
theorem c1_counterexample :
    (cancelJob initialJob).status = .cancelled ∧
      (taskStates (fun _ => .exn "e".toList) [] (cancelJob initialJob)).map
          JobRecord.status = [.running, .completed] := by
  exact ⟨rfl, rfl⟩

/-- C1 (corrected): cancelling a queued job sets its status directly to
`cancelled`, but cancellation is never observed afterwards: whatever the
configured categories and their outcomes, the background task's first write
unconditionally sets the job's status to `running`. -/
theorem c1_cancel_not_observed (outcome : List Char → CatOutcome)
    (cats : List (List Char)) (j : JobRecord) :
    (cancelJob j).status = .cancelled ∧
      (taskStates outcome cats (cancelJob j)).head? =
        some { cancelJob j with status := .running } :=
  ⟨rfl, rfl⟩

/-- A job record that has reached the terminal status `completed`. -/
def completedJob : JobRecord :=
  { status := .completed, progress := { overall_progress := 100 } }

/-- C2 counterexample: `cancel_job` mutates a job whose status is already
terminal (`completed`), setting its status to `cancelled`. -/
theorem c2_counterexample :
    completedJob.status = .completed ∧
      (cancelJob completedJob).status ≠ .completed := by
  exact ⟨rfl, by decide⟩

/-- C2 (corrected): once a job's status is terminal the session-end cascade
indeed leaves the record unchanged, but an explicit cancellation request
still mutates it, unconditionally setting the status to `cancelled`. -/
theorem c2_terminal_mutability (j : JobRecord)
    (h : j.status = .completed ∨ j.status = .failed ∨ j.status = .cancelled) :
    endSessionCancel j = j ∧ cancelJob j = { j with status := .cancelled } := by
  refine ⟨?_, rfl⟩
  rw [endSessionCancel, if_neg]
  rcases h with h | h | h <;> simp [h]

/-- C2 witness at a concrete completed job. -/
theorem c2_terminal_mutability_witness :
    (completedJob.status = .completed ∨ completedJob.status = .failed ∨
        completedJob.status = .cancelled) ∧
      (endSessionCancel completedJob = completedJob ∧
        cancelJob completedJob = { completedJob with status := .cancelled }) :=
  ⟨Or.inl rfl, c2_terminal_mutability _ (Or.inl rfl)⟩

/-! ## Lemmas about the per-category loop trace -/

theorem pct_le_100 {c t : ℕ} (h : c ≤ t) : (c : ℚ) / (t : ℚ) * 100 ≤ 100 := by
  rcases Nat.eq_zero_or_pos t with ht | ht
  · subst ht
    simp
  · have htq : (0 : ℚ) < t := by exact_mod_cast ht
    have h1 : (c : ℚ) / t ≤ 1 := by
      rw [div_le_one htq]
      exact_mod_cast h
    nlinarith

theorem pct_mono {c c' t : ℕ} (h : c ≤ c') :
    (c : ℚ) / (t : ℚ) * 100 ≤ (c' : ℚ) / (t : ℚ) * 100 := by
  rcases Nat.eq_zero_or_pos t with ht | ht
  · subst ht
    simp
  · have htq : (0 : ℚ) < t := by exact_mod_cast ht
    have hcc : (c : ℚ) ≤ (c' : ℚ) := by exact_mod_cast h
    have h1 : (c : ℚ) / t ≤ (c' : ℚ) / t := by gcongr
    nlinarith

/-- The successive `overall_progress` values the per-category loop writes
never decrease, provided the job enters the loop with a value at most the
first percentage to be written and the completed count can still reach the
total. -/
theorem runCats_chain (outcome : List Char → CatOutcome) (total : ℕ) :
    ∀ (cats : List (List Char)) (completed : ℕ) (acc : OverallResults)
      (j : JobRecord),
      j.progress.overall_progress ≤ (completed : ℚ) / (total : ℚ) * 100 →
      completed + cats.length ≤ total →
      List.Chain'
        (fun a b => a.progress.overall_progress ≤ b.progress.overall_progress)
        (j :: runCats outcome total cats completed acc j) := by
  intro cats
  induction cats with
  | nil =>
    intro completed acc j hle hct
    rw [runCats]
    refine List.chain'_cons.mpr ⟨?_, List.chain'_singleton _⟩
    exact hle.trans (pct_le_100 (by simpa using hct))
  | cons cat cats ih =>
    intro completed acc j hle hct
    simp only [List.length_cons] at hct
    rw [runCats]
    cases h : outcome cat with
    | ok r =>
      refine List.chain'_cons.mpr ⟨hle, List.chain'_cons.mpr ⟨le_refl _, ?_⟩⟩
      exact ih (completed + 1) _ _ (pct_mono (Nat.le_succ _)) (by omega)
    | exn m =>
      refine List.chain'_cons.mpr ⟨hle, ?_⟩
      exact ih completed _ _ (le_refl _) (by omega)

/-- In the per-category loop trace, any state whose status is `completed`
carries `overall_progress = 100` (only the final write marks completion,
and it forces the percentage to 100), provided the loop is entered with a
non-completed status. -/
theorem runCats_completed_progress (outcome : List Char → CatOutcome)
    (total : ℕ) :
    ∀ (cats : List (List Char)) (completed : ℕ) (acc : OverallResults)
      (j : JobRecord), j.status = .running →
      ∀ s ∈ runCats outcome total cats completed acc j,
        s.status = .completed → s.progress.overall_progress = 100 := by
  intro cats
  induction cats with
  | nil =>
    intro completed acc j hj s hs hcomp
    rw [runCats] at hs
    simp only [List.mem_singleton] at hs
    subst hs
    rfl
  | cons cat cats ih =>
    intro completed acc j hj s hs hcomp
    rw [runCats] at hs
    cases h : outcome cat with
    | ok r =>
      rw [h] at hs
      simp only [List.mem_cons] at hs
      rcases hs with rfl | rfl | hs
      · simp only at hcomp
        rw [hj] at hcomp
        cases hcomp
      · simp only at hcomp
        rw [hj] at hcomp
        cases hcomp
      · exact ih _ _ _ (by simpa using hj) s hs hcomp
    | exn m =>
      rw [h] at hs
      simp only [List.mem_cons] at hs
      rcases hs with rfl | hs
      · simp only at hcomp
        rw [hj] at hcomp
        cases hcomp
      · exact ih _ _ _ (by simpa using hj) s hs hcomp

/-- C5: across the successive states the executing task writes, the
`overall_progress` value never decreases, and every state whose status is
`completed` (only the final one) has `overall_progress` exactly 100. -/
theorem c5_progress_monotone (outcome : List Char → CatOutcome)
    (cats : List (List Char)) :
    List.Chain'
        (fun a b => a.progress.overall_progress ≤ b.progress.overall_progress)
        (initialJob :: taskStates outcome cats initialJob) ∧
      ∀ s ∈ taskStates outcome cats initialJob,
        s.status = .completed → s.progress.overall_progress = 100 := by
  constructor
  · refine List.chain'_cons.mpr ⟨le_refl _, ?_⟩
    refine runCats_chain outcome cats.length cats 0 emptyResults _ ?_ (by omega)
    show (0 : ℚ) ≤ (0 : ℚ) / (cats.length : ℚ) * 100
    simp
  · intro s hs hcomp
    rw [taskStates] at hs
    simp only [List.mem_cons] at hs
    rcases hs with rfl | hs
    · simp only at hcomp
      cases hcomp
    · exact runCats_completed_progress outcome cats.length cats 0 emptyResults _
        rfl s hs hcomp

/-! ## Lemmas about the final job state and the results dictionary -/

/-- Python dict lookup `d[k]` on the insertion-ordered association list. -/
def dictGet : List (List Char × CatResult) → List Char → Option CatResult
  | [], _ => none
  | (k', v) :: rest, k => if k' = k then some v else dictGet rest k

theorem dictGet_dictInsert_self :
    ∀ (d : List (List Char × CatResult)) (k : List Char) (v : CatResult),
      dictGet (dictInsert d k v) k = some v := by
  intro d
  induction d with
  | nil => intro k v; simp [dictInsert, dictGet]
  | cons e rest ih =>
    intro k v
    obtain ⟨k', v'⟩ := e
    rw [dictInsert]
    split
    · rename_i he
      rw [dictGet, if_pos rfl]
    · rename_i he
      rw [dictGet, if_neg he]
      exact ih k v

theorem dictGet_dictInsert_ne :
    ∀ (d : List (List Char × CatResult)) (k : List Char) (v : CatResult)
      (k' : List Char), k' ≠ k → dictGet (dictInsert d k v) k' = dictGet d k' := by
  intro d
  induction d with
  | nil =>
    intro k v k' hne
    simp [dictInsert, dictGet, hne.symm]
  | cons e rest ih =>
    intro k v k' hne
    obtain ⟨a, b⟩ := e
    rw [dictInsert]
    split
    · rename_i he
      subst he
      rw [dictGet, dictGet, if_neg (fun h => hne h.symm), if_neg (fun h => hne h.symm)]
    · rw [dictGet, dictGet]
      split
      · rfl
      · exact ih k v k' hne

/-- The value of the `overall_results` accumulator after the per-category
loop of `run_automation_task` has processed the given categories (the same
updates `runCats` applies, without the job-state trace). -/
def foldResults (outcome : List Char → CatOutcome) :
    List (List Char) → OverallResults → OverallResults
  | [], acc => acc
  | cat :: cats, acc =>
    match outcome cat with
    | .ok r => foldResults outcome cats
        { total_products_found := acc.total_products_found + r.products_found,
          total_pins_created := acc.total_pins_created + r.pins_created,
          total_errors := acc.total_errors + r.errors,
          category_results := dictInsert acc.category_results cat (.results r) }
    | .exn m => foldResults outcome cats
        { total_products_found := acc.total_products_found,
          total_pins_created := acc.total_pins_created,
          total_errors := acc.total_errors + 1,
          category_results := dictInsert acc.category_results cat (.error m) }

/-- Each category contributes its own error count (for a returned results
dictionary) or exactly 1 (for an exception) to the aggregate error total. -/
theorem foldResults_total_errors (outcome : List Char → CatOutcome) :
    ∀ (cats : List (List Char)) (acc : OverallResults),
      (foldResults outcome cats acc).total_errors =
        acc.total_errors + (cats.map (fun c =>
          match outcome c with | .ok r => r.errors | .exn _ => 1)).sum := by
  intro cats
  induction cats with
  | nil => intro acc; simp [foldResults]
  | cons cat cats ih =>
    intro acc
    rw [foldResults]
    cases h : outcome cat with
    | ok r =>
      rw [ih]
      simp [h]
      omega
    | exn m =>
      rw [ih]
      simp [h]
      omega

theorem foldResults_dictGet_of_not_mem (outcome : List Char → CatOutcome) :
    ∀ (cats : List (List Char)) (acc : OverallResults) (k : List Char),
      k ∉ cats →
      dictGet (foldResults outcome cats acc).category_results k =
        dictGet acc.category_results k := by
  intro cats
  induction cats with
  | nil => intro acc k _; rw [foldResults]
  | cons cat cats ih =>
    intro acc k hk
    have hne : k ≠ cat := fun h => hk (h ▸ List.mem_cons_self _ _)
    have hk' : k ∉ cats := fun h => hk (List.mem_cons_of_mem _ h)
    rw [foldResults]
    cases h : outcome cat with
    | ok r => rw [ih _ k hk', dictGet_dictInsert_ne _ _ _ _ hne]
    | exn m => rw [ih _ k hk', dictGet_dictInsert_ne _ _ _ _ hne]

theorem foldResults_dictGet_of_mem (outcome : List Char → CatOutcome) :
    ∀ (cats : List (List Char)) (acc : OverallResults) (k : List Char),
      k ∈ cats →
      dictGet (foldResults outcome cats acc).category_results k =
        some (match outcome k with
              | .ok r => .results r | .exn m => .error m) := by
  intro cats
  induction cats with
  | nil => intro acc k hk; cases hk
  | cons cat cats ih =>
    intro acc k hk
    rcases List.mem_cons.mp hk with rfl | hk'
    · by_cases hmem : k ∈ cats
      · rw [foldResults]
        cases h : outcome k with
        | ok r =>
          have h2 := ih { total_products_found := acc.total_products_found + r.products_found, total_pins_created := acc.total_pins_created + r.pins_created, total_errors := acc.total_errors + r.errors, category_results := dictInsert acc.category_results k (CatResult.results r) } k hmem
          rw [h] at h2
          exact h2
        | exn m =>
          have h2 := ih { total_products_found := acc.total_products_found, total_pins_created := acc.total_pins_created, total_errors := acc.total_errors + 1, category_results := dictInsert acc.category_results k (CatResult.error m) } k hmem
          rw [h] at h2
          exact h2
      · rw [foldResults]
        cases h : outcome k with
        | ok r =>
          rw [foldResults_dictGet_of_not_mem outcome cats _ k hmem,
            dictGet_dictInsert_self]
        | exn m =>
          rw [foldResults_dictGet_of_not_mem outcome cats _ k hmem,
            dictGet_dictInsert_self]
    · rw [foldResults]
      cases h : outcome cat with
      | ok r => exact ih _ k hk'
      | exn m => exact ih _ k hk'

/-- The last state of the per-category loop trace has status `completed`. -/
theorem runCats_last_status (outcome : List Char → CatOutcome) (total : ℕ) :
    ∀ (cats : List (List Char)) (completed : ℕ) (acc : OverallResults)
      (j d : JobRecord),
      ((runCats outcome total cats completed acc j).getLastD d).status =
        .completed := by
  intro cats
  induction cats with
  | nil => intro completed acc j d; rfl
  | cons cat cats ih =>
    intro completed acc j d
    rw [runCats]
    cases h : outcome cat with
    | ok r =>
      rw [List.getLastD_cons, List.getLastD_cons]
      exact ih _ _ _ _
    | exn m =>
      rw [List.getLastD_cons]
      exact ih _ _ _ _

/-- The last state of the per-category loop trace carries exactly the
accumulated results. -/
theorem runCats_last_results (outcome : List Char → CatOutcome) (total : ℕ) :
    ∀ (cats : List (List Char)) (completed : ℕ) (acc : OverallResults)
      (j d : JobRecord),
      ((runCats outcome total cats completed acc j).getLastD d).results =
        some (foldResults outcome cats acc) := by
  intro cats
  induction cats with
  | nil => intro completed acc j d; rfl
  | cons cat cats ih =>
    intro completed acc j d
    rw [runCats, foldResults]
    cases h : outcome cat with
    | ok r =>
      rw [List.getLastD_cons, List.getLastD_cons]
      exact ih _ _ _ _
    | exn m =>
      rw [List.getLastD_cons]
      exact ih _ _ _ _

/-- C4: when one configured category's `run_complete_automation` call
throws, the job still ends `completed`; the final results record the
throwing category as `{error: message}`, count it exactly once in the
aggregate error total (each category contributes its own error count, an
exception contributing exactly 1), and every category that returned
normally keeps its results dictionary. -/
theorem c4_category_exception_isolated (outcome : List Char → CatOutcome)
    (cats : List (List Char)) (cat : List Char) (m : List Char)
    (hmem : cat ∈ cats) (hexn : outcome cat = .exn m) :
    ((taskStates outcome cats initialJob).getLastD initialJob).status =
        .completed ∧
      ∃ R : OverallResults,
        ((taskStates outcome cats initialJob).getLastD initialJob).results =
            some R ∧
          dictGet R.category_results cat = some (.error m) ∧
          R.total_errors = (cats.map (fun c =>
            match outcome c with | .ok r => r.errors | .exn _ => 1)).sum ∧
          ∀ cat' ∈ cats, ∀ r : BotResults, outcome cat' = .ok r →
            dictGet R.category_results cat' = some (.results r) := by
  rw [taskStates, List.getLastD_cons]
  refine ⟨runCats_last_status _ _ _ _ _ _ _,
    foldResults outcome cats emptyResults,
    runCats_last_results _ _ _ _ _ _ _, ?_, ?_, ?_⟩
  · rw [foldResults_dictGet_of_mem outcome cats emptyResults cat hmem, hexn]
  · rw [foldResults_total_errors]
    simp [emptyResults]
  · intro cat' hmem' r hok
    rw [foldResults_dictGet_of_mem outcome cats emptyResults cat' hmem', hok]

/-- C4 witness: a two-category job where `home` throws and `electronics`
returns normally. -/
theorem c4_category_exception_isolated_witness :
    ("home".toList ∈ ["electronics".toList, "home".toList] ∧
        (fun c => if c = "home".toList then CatOutcome.exn "boom".toList
                  else CatOutcome.ok initBotResults) "home".toList =
          .exn "boom".toList) ∧
      (((taskStates
            (fun c => if c = "home".toList then CatOutcome.exn "boom".toList
                      else CatOutcome.ok initBotResults)
            ["electronics".toList, "home".toList] initialJob).getLastD
          initialJob).status = .completed ∧
        ∃ R : OverallResults,
          ((taskStates
              (fun c => if c = "home".toList then CatOutcome.exn "boom".toList
                        else CatOutcome.ok initBotResults)
              ["electronics".toList, "home".toList] initialJob).getLastD
            initialJob).results = some R ∧
            dictGet R.category_results "home".toList =
              some (.error "boom".toList) ∧
            R.total_errors =
              (["electronics".toList, "home".toList].map (fun c =>
                match (fun c => if c = "home".toList
                    then CatOutcome.exn "boom".toList
                    else CatOutcome.ok initBotResults) c with
                | .ok r => r.errors | .exn _ => 1)).sum ∧
            ∀ cat' ∈ ["electronics".toList, "home".toList],
              ∀ r : BotResults,
              (fun c => if c = "home".toList then CatOutcome.exn "boom".toList
                        else CatOutcome.ok initBotResults) cat' = .ok r →
              dictGet R.category_results cat' = some (.results r)) :=
  ⟨⟨by decide, rfl⟩,
    c4_category_exception_isolated _ _ _ _ (by decide) rfl⟩

/-- C8 counterexample: with no boards available and none configured,
`run_complete_automation` returns the untouched all-zero results record —
`errors` stays 0 and no error entry exists — and a job whose only category
hits this path completes with aggregate `total_errors = 0` and the plain
zero results dictionary (not an error) recorded for the category. -/
theorem c8_counterexample :
    run_complete_automation [] (fun _ => []) (fun _ => .failed) (fun _ => none)
        "electronics".toList 5 none = initBotResults ∧
      initBotResults.errors = 0 ∧
      ((taskStates (fun _ => .ok initBotResults) ["electronics".toList]
            initialJob).getLastD initialJob).results.map
          OverallResults.total_errors = some 0 ∧
      ((taskStates (fun _ => .ok initBotResults) ["electronics".toList]
            initialJob).getLastD initialJob).results.map
          (fun R => dictGet R.category_results "electronics".toList) =
        some (some (.results initBotResults)) :=
  ⟨rfl, rfl, rfl, rfl⟩

/-- C8 (corrected): when `listBoards` returns the empty list and no board
is configured, the category is NOT recorded as an error:
`run_complete_automation` early-returns the all-zero results record
(`errors = 0`, merely logging), so the aggregate error total is not
incremented; the job itself still completes. -/
theorem c8_no_boards_zero_not_error
    (pages : List Char → List (Option Product)) (pinOutcome : ℕ → PinOutcome)
    (detailTitle : ℕ → Option (List Char))
    (max_products : ℕ) (cats : List (List Char)) :
    (∀ category : List Char,
        run_complete_automation [] pages pinOutcome detailTitle category
          max_products none = initBotResults) ∧
      initBotResults.errors = 0 ∧
      ((taskStates (fun c =>
            .ok (run_complete_automation [] pages pinOutcome detailTitle c
              max_products none))
          cats initialJob).getLastD initialJob).status = .completed ∧
      ∃ R : OverallResults,
        ((taskStates (fun c =>
              .ok (run_complete_automation [] pages pinOutcome detailTitle c
                max_products none))
            cats initialJob).getLastD initialJob).results = some R ∧
          R.total_errors = 0 := by
  refine ⟨fun _ => rfl, rfl, ?_, ?_⟩
  · rw [taskStates, List.getLastD_cons]
    exact runCats_last_status _ _ _ _ _ _ _
  · rw [taskStates, List.getLastD_cons]
    refine ⟨foldResults _ cats emptyResults, runCats_last_results _ _ _ _ _ _ _, ?_⟩
    rw [foldResults_total_errors]
    have hz : ∀ x ∈ (cats.map (fun c =>
        match CatOutcome.ok (run_complete_automation [] pages pinOutcome
            detailTitle c max_products none) with
        | .ok r => r.errors | .exn _ => 1)), x = 0 := by
      intro x hx
      obtain ⟨c, _, rfl⟩ := List.mem_map.mp hx
      rfl
    rw [List.sum_eq_zero hz]
    rfl

/-! ## Base64 round-trip and the encryption manager -/

theorem b64_index_b64_char : ∀ i : ℕ, i < 64 → b64_index (b64_char i) = i := by
  decide

theorem b64_char_ne_pad : ∀ i : ℕ, i < 64 → b64_char i ≠ '=' := by
  decide

/-- Decoding inverts encoding on every byte list (each element < 256). -/
theorem b64_decode_encode :
    ∀ l : List ℕ, (∀ b ∈ l, b < 256) → b64_decode (b64_encode l) = l := by
  intro l
  induction l using b64_encode.induct with
  | case1 =>
    intro _
    rfl
  | case2 b0 =>
    intro hb
    have h0 : b0 < 256 := hb b0 (List.mem_singleton.mpr rfl)
    rw [b64_encode, b64_decode, if_pos rfl,
      b64_index_b64_char _ (by omega), b64_index_b64_char _ (by omega)]
    simp only [List.cons.injEq, and_true]
    omega
  | case3 b0 b1 =>
    intro hb
    have h0 : b0 < 256 := hb b0 (by simp)
    have h1 : b1 < 256 := hb b1 (by simp)
    rw [b64_encode, b64_decode,
      if_neg (b64_char_ne_pad _ (by omega)), if_pos rfl,
      b64_index_b64_char _ (by omega), b64_index_b64_char _ (by omega),
      b64_index_b64_char _ (by omega)]
    simp only [List.cons.injEq, and_true]
    omega
  | case4 b0 b1 b2 rest ih =>
    intro hb
    have h0 : b0 < 256 := hb b0 (by simp)
    have h1 : b1 < 256 := hb b1 (by simp)
    have h2 : b2 < 256 := hb b2 (by simp)
    have hrest : ∀ b ∈ rest, b < 256 := fun b hbr => hb b (by simp [hbr])
    rw [b64_encode, b64_decode,
      if_neg (b64_char_ne_pad _ (by omega)),
      if_neg (b64_char_ne_pad _ (by omega)),
      b64_index_b64_char _ (by omega), b64_index_b64_char _ (by omega),
      b64_index_b64_char _ (by omega), b64_index_b64_char _ (by omega),
      ih hrest]
    simp only [List.cons.injEq, and_true]
    refine ⟨by omega, by omega, by omega⟩

/-- C9: for every key-derivation function of passphrase and salt, every
Fernet implementation satisfying its contract (decryption inverts
encryption under the same key, tokens are byte strings), and every
plaintext, decrypting the encryption of the plaintext under the key derived
from `(p, s)` using the key derived again from the same `(p, s)` returns
the plaintext: the extra urlsafe-base64 layer `encrypt_data`/`decrypt_data`
add around the Fernet token round-trips exactly. -/
theorem c9_encryption_roundtrip (kdf : List ℕ → List ℕ → List ℕ)
    (fernetEnc : List Char → List ℕ → List ℕ)
    (fernetDec : List Char → List ℕ → Option (List ℕ))
    (p s x : List ℕ)
    (hdec : ∀ k m, fernetDec k (fernetEnc k m) = some m)
    (hbytes : ∀ b ∈ fernetEnc (generate_key kdf p s).1 x, b < 256) :
    decrypt_data fernetDec
        (encrypt_data fernetEnc x (generate_key kdf p s).1)
        (generate_key kdf p s).1 = some x := by
  rw [decrypt_data, encrypt_data, b64_decode_encode _ hbytes, hdec]

/-- C9 witness: a concrete Fernet model (identity on byte lists) and
concrete passphrase, salt and plaintext. -/
theorem c9_encryption_roundtrip_witness :
    ((∀ (k : List Char) (m : List ℕ),
        (fun (_ : List Char) (m : List ℕ) => some m) k
            ((fun (_ : List Char) (m : List ℕ) => m) k m) = some m) ∧
      (∀ b ∈ (fun (_ : List Char) (m : List ℕ) => m)
          (generate_key (fun _ _ => [7, 300]) [1] [2]).1 [10, 20, 255],
        b < 256)) ∧
      decrypt_data (fun (_ : List Char) (m : List ℕ) => some m)
          (encrypt_data (fun (_ : List Char) (m : List ℕ) => m) [10, 20, 255]
            (generate_key (fun _ _ => [7, 300]) [1] [2]).1)
          (generate_key (fun _ _ => [7, 300]) [1] [2]).1 = some [10, 20, 255] :=
  ⟨⟨fun _ _ => rfl, by decide⟩,
    c9_encryption_roundtrip (fun _ _ => [7, 300]) _ _ [1] [2] [10, 20, 255]
      (fun _ _ => rfl) (by decide)⟩

end PinBot

